import Mathlib

/-!
Verification of the pico-bytes instruction/program codec (src/lib.rs).

The Rust source is shallowly embedded: machine integers (u8/u32/u64) become
Nat with explicit truncation (`% 2^w`, `/ 2^w`) exactly where the source
casts or shifts; fallible conversions become Except; the byte-iterator
parser becomes structural recursion over a List Nat of bytes (each < 256);
a Rust String becomes the list of its characters' code points, so that
`string.len()` (UTF-8 byte count) and `string.chars()` (code points) can
both be modelled faithfully; an f64 is carried by its 64-bit pattern, which
is all the codec ever inspects (to_bits / from_bits).
-/

namespace PicoBytes

/-- Rust lib.rs lines 8-12: a jump/call target, either a literal address or a
register to read at run time. Both payloads are u32. -/
inductive Locator
  | address (a : Nat)
  | fromRegister (r : Nat)
deriving DecidableEq, Repr

/-- Rust lib.rs lines 74-79: the closed set of binary arithmetic operations. -/
inductive BinaryOperation
  | add
  | sub
  | div
  | mul
deriving DecidableEq, Repr

/-- Rust lib.rs line 81: `pub struct BinaryOperationError;` a unit struct
carrying no payload. -/
inductive BinaryOperationError
  | mk
deriving DecidableEq, Repr

/-- Rust lib.rs lines 104-108: the closed set of unary operations. -/
inductive UnaryOperation
  | neg
deriving DecidableEq, Repr

/-- Rust lib.rs line 110: `pub struct UnaryOperationError;` a unit struct
carrying no payload. -/
inductive UnaryOperationError
  | mk
deriving DecidableEq, Repr

/-- Rust lib.rs lines 82-93: `impl TryFrom<u8> for BinaryOperation`. -/
def BinaryOperation.tryFrom (value : Nat) : Except BinaryOperationError BinaryOperation :=
  match value with
  | 0 => .ok .add
  | 1 => .ok .sub
  | 2 => .ok .div
  | 3 => .ok .mul
  | _ => .error .mk

/-- Rust lib.rs lines 94-103: `impl From<BinaryOperation> for u8`. -/
def BinaryOperation.toU8 : BinaryOperation → Nat
  | .add => 0
  | .sub => 1
  | .div => 2
  | .mul => 3

/-- Rust lib.rs lines 111-119: `impl TryFrom<u8> for UnaryOperation`. -/
def UnaryOperation.tryFrom (value : Nat) : Except UnaryOperationError UnaryOperation :=
  match value with
  | 0 => .ok .neg
  | _ => .error .mk

/-- Rust lib.rs lines 120-126: `impl From<UnaryOperation> for u8`. -/
def UnaryOperation.toU8 : UnaryOperation → Nat
  | .neg => 0

/-- Rust lib.rs lines 128-134: `impl From<Locator> for u32`; both variants
give up their inner value. -/
def Locator.toU32 : Locator → Nat
  | .fromRegister a => a
  | .address a => a

/-- Rust lib.rs lines 16-70: the ByteCode instruction set. `int` carries a
u64 value, `float` carries the 64-bit pattern of its f64 (the codec only
ever moves that pattern, via to_bits/from_bits). -/
inductive ByteCode
  | none
  | halt
  | jump (addr : Locator)
  | jumpIf (cond : Nat) (addr : Locator)
  | string (dst : Nat) (addr : Nat)
  | int (dst : Nat) (value : Nat)
  | float (dst : Nat) (value : Nat)
  | bool (dst : Nat) (value : Bool)
  | move (dst : Nat) (src : Nat)
  | field (dst : Nat) (src : Nat) (fieldIdx : Nat)
  | call (addr : Locator) (args : Nat) (dst : Nat)
  | binary (op : BinaryOperation) (dst : Nat) (left : Nat) (right : Nat)
  | unary (op : UnaryOperation) (dst : Nat) (right : Nat)
deriving DecidableEq, Repr

/-- Rust lib.rs line 13: `pub type Bytes = (u8, u32, u32, u32);`. -/
abbrev Bytes := Nat × Nat × Nat × Nat

/-- Rust lib.rs lines 135-167: `impl From<ByteCode> for Bytes` (the encoder).
The u64 splits are literal: `value as u32` is `% 2^32` and
`(value >> 32) as u32` is `/ 2^32 % 2^32`. -/
def encode : ByteCode → Bytes
  | .none => (0x00, 0, 0, 0)
  | .halt => (0x01, 0, 0, 0)
  | .jump (.address a) => (0x02, 0, a, 0)
  | .jump (.fromRegister a) => (0x03, 0, a, 0)
  | .jumpIf c (.address a) => (0x04, c, a, 0)
  | .jumpIf c (.fromRegister a) => (0x05, c, a, 0)
  | .string d a => (0x10, d, a, 0)
  | .int d v => (0x11, d, v % 4294967296, v / 4294967296 % 4294967296)
  | .float d v => (0x12, d, v % 4294967296, v / 4294967296 % 4294967296)
  | .bool d v => (0x13, d, if v then 1 else 0, 0)
  | .move d s => (0x20, d, s, 0)
  | .field d s f => (0x21, d, s, f)
  | .call (.address a) args d => (0x22, a, args, d)
  | .call (.fromRegister a) args d => (0x23, a, args, d)
  | .binary op d l r => (0x30 + op.toU8, d, l, r)
  | .unary op d r => (0x40 + op.toU8, d, r, 0)

/-- Rust lib.rs lines 170-174: the decoder's error enum. -/
inductive ByteCodeError
  | invalidOperation
  | invalidBinaryOperation (code : Nat)
  | invalidUnaryOperation (code : Nat)
deriving DecidableEq, Repr

/-- Rust lib.rs lines 189-263: `impl TryFrom<Bytes> for ByteCode` (the
decoder). The u64 reassembly `(w2 as u64) | ((w3 as u64) << 32)` is modelled
with Nat lor and shiftLeft. The binary/unary arms subtract 0x20 from the
opcode exactly as the source does (lines 248 and 255), and build their error
payloads from `op - 0x20` and `op - 0x30` respectively (lines 249 and 256). -/
def decode (value : Bytes) : Except ByteCodeError ByteCode :=
  match value with
  | (0x00, _, _, _) => .ok .none
  | (0x01, _, _, _) => .ok .halt
  | (0x02, _, w2, _) => .ok (.jump (.address w2))
  | (0x03, _, w2, _) => .ok (.jump (.fromRegister w2))
  | (0x04, w1, w2, _) => .ok (.jumpIf w1 (.address w2))
  | (0x05, w1, w2, _) => .ok (.jumpIf w1 (.fromRegister w2))
  | (0x10, w1, w2, _) => .ok (.string w1 w2)
  | (0x11, w1, w2, w3) => .ok (.int w1 (w2 ||| (w3 <<< 32)))
  | (0x12, w1, w2, w3) => .ok (.float w1 (w2 ||| (w3 <<< 32)))
  | (0x13, w1, w2, _) => .ok (.bool w1 (w2 != 0))
  | (0x20, w1, w2, _) => .ok (.move w1 w2)
  | (0x21, w1, w2, w3) => .ok (.field w1 w2 w3)
  | (0x22, w1, w2, w3) => .ok (.call (.address w1) w2 w3)
  | (0x23, w1, w2, w3) => .ok (.call (.fromRegister w1) w2 w3)
  | (op, w1, w2, w3) =>
    if 0x30 ≤ op ∧ op ≤ 0x3f then
      match BinaryOperation.tryFrom (op - 0x20) with
      | .ok bop => .ok (.binary bop w1 w2 w3)
      | .error _ => .error (.invalidBinaryOperation (op - 0x20))
    else if 0x40 ≤ op ∧ op ≤ 0x4f then
      match UnaryOperation.tryFrom (op - 0x20) with
      | .ok uop => .ok (.unary uop w1 w2)
      | .error _ => .error (.invalidUnaryOperation (op - 0x30))
    else .error .invalidOperation

/-- Rust lib.rs lines 265-269: a Program is a string pool plus a code
stream. A Rust String is modelled as the list of its characters' Unicode
code points. -/
structure Program where
  strings : List (List Nat)
  code : List ByteCode
deriving DecidableEq, Repr

/-- Rust lib.rs lines 270-274: the program parser's error enum (the
source spells the first constructor Insufficiant). -/
inductive ProgramParseError
  | insufficiantBytes
  | byteCodeError (err : ByteCodeError)
deriving DecidableEq, Repr

/-- Big-endian bytes of `(n as u32)`, modelling `u32::to_be_bytes`. -/
def u32be (n : Nat) : List Nat :=
  [n / 16777216 % 256, n / 65536 % 256, n / 256 % 256, n % 256]

/-- Reassembly of four bytes, modelling `u32::from_be_bytes`. -/
def beU32 (b1 b2 b3 b4 : Nat) : Nat :=
  ((b1 * 256 + b2) * 256 + b3) * 256 + b4

/-- Rust `char::len_utf8`: the number of bytes the character occupies in
UTF-8; `String::len` sums these. -/
def utf8Len (c : Nat) : Nat :=
  if c < 0x80 then 1 else if c < 0x800 then 2 else if c < 0x10000 then 3 else 4

/-- Rust `String::len` for a string given by its characters' code points:
the total UTF-8 byte count, not the character count. -/
def strLen (s : List Nat) : Nat :=
  (s.map utf8Len).sum

/-- Rust lib.rs lines 345-346: one string-pool entry as serialized: the
4-byte big-endian `string.len()` followed by each character truncated to a
single byte (`c as u8`). -/
def serializeString (s : List Nat) : List Nat :=
  u32be (strLen s) ++ s.map (fun c => c % 256)

/-- Rust lib.rs lines 349-355: one instruction record as serialized: the
opcode byte followed by the three operand words in big-endian. -/
def recordBytes (b : Bytes) : List Nat :=
  b.1 :: (u32be b.2.1 ++ u32be b.2.2.1 ++ u32be b.2.2.2)

/-- Rust lib.rs lines 339-358: `impl From<Program> for Vec<u8>` (the
serializer): string count, then the string entries, then the records. -/
def serialize (p : Program) : List Nat :=
  u32be p.strings.length
    ++ (p.strings.map serializeString).flatten
    ++ (p.code.map (fun bc => recordBytes (encode bc))).flatten

/-- Rust lib.rs lines 303-309: the inner loop reading `string_size` bytes,
each pushed as a char (`c as char` keeps the byte's value as code point).
Returns the characters read and the remaining bytes, or None on a short
read. -/
def parseString : Nat → List Nat → Option (List Nat × List Nat)
  | 0, bytes => some ([], bytes)
  | k + 1, c :: rest =>
    match parseString k rest with
    | some (s, rem) => some (c :: s, rem)
    | Option.none => Option.none
  | _ + 1, [] => Option.none

/-- Rust lib.rs lines 296-311: the loop reading `size` string entries, each
a 4-byte big-endian length then that many bytes. Every short read maps to
InsufficiantBytes in the caller, so Option suffices here. -/
def parseStrings : Nat → List Nat → Option (List (List Nat) × List Nat)
  | 0, bytes => some ([], bytes)
  | k + 1, b1 :: b2 :: b3 :: b4 :: rest =>
    match parseString (beU32 b1 b2 b3 b4) rest with
    | some (s, rest2) =>
      match parseStrings k rest2 with
      | some (ss, rem) => some (s :: ss, rem)
      | Option.none => Option.none
    | Option.none => Option.none
  | _ + 1, _ => Option.none

/-- Rust lib.rs lines 313-334: the `while let` loop: stop cleanly at end of
buffer, read three 4-byte words after the opcode byte (short read is
InsufficiantBytes), decode the record (a decode error is returned
immediately), and continue. -/
def parseCode : List Nat → Except ProgramParseError (List ByteCode)
  | [] => .ok []
  | op :: a1 :: a2 :: a3 :: a4 :: b1 :: b2 :: b3 :: b4 :: c1 :: c2 :: c3 :: c4 :: rest =>
    match decode (op, beU32 a1 a2 a3 a4, beU32 b1 b2 b3 b4, beU32 c1 c2 c3 c4) with
    | .error e => .error (.byteCodeError e)
    | .ok bc =>
      match parseCode rest with
      | .ok code => .ok (bc :: code)
      | .error e => .error e
  | _ :: _ => .error .insufficiantBytes

/-- Rust lib.rs lines 284-338: `impl TryFrom<&[u8]> for Program` (the
parser): 4-byte string count (short read is InsufficiantBytes), the string
entries, then records until the buffer is exhausted. -/
def parse (bytes : List Nat) : Except ProgramParseError Program :=
  match bytes with
  | b1 :: b2 :: b3 :: b4 :: rest =>
    match parseStrings (beU32 b1 b2 b3 b4) rest with
    | some (strings, rest2) =>
      match parseCode rest2 with
      | .ok code => .ok ⟨strings, code⟩
      | .error e => .error e
    | Option.none => .error .insufficiantBytes
  | _ => .error .insufficiantBytes

/-- Well-formedness of a Locator as a Rust value: its payload fits in u32. -/
def Locator.wfb : Locator → Bool
  | .address a => decide (a < 4294967296)
  | .fromRegister r => decide (r < 4294967296)

/-- Well-formedness of a ByteCode as a Rust value: every field fits the
machine-integer type it has in the source (u32 registers/addresses, u64
int value, 64-bit float pattern). -/
def ByteCode.wfb : ByteCode → Bool
  | .none => true
  | .halt => true
  | .jump l => l.wfb
  | .jumpIf c l => decide (c < 4294967296) && l.wfb
  | .string d a => decide (d < 4294967296) && decide (a < 4294967296)
  | .int d v => decide (d < 4294967296) && decide (v < 18446744073709551616)
  | .float d v => decide (d < 4294967296) && decide (v < 18446744073709551616)
  | .bool d _ => decide (d < 4294967296)
  | .move d s => decide (d < 4294967296) && decide (s < 4294967296)
  | .field d s f => decide (d < 4294967296) && decide (s < 4294967296) && decide (f < 4294967296)
  | .call l a d => l.wfb && decide (a < 4294967296) && decide (d < 4294967296)
  | .binary _ d l r => decide (d < 4294967296) && decide (l < 4294967296) && decide (r < 4294967296)
  | .unary _ d r => decide (d < 4294967296) && decide (r < 4294967296)

/-- True unless the instruction is Binary or Unary: exactly the
instructions whose encoded record the decoder accepts (the decoder's
off-by-0x10 subtraction rejects every Binary/Unary record). -/
def ByteCode.notBinaryUnary : ByteCode → Bool
  | .binary _ _ _ _ => false
  | .unary _ _ _ => false
  | _ => true

/-- True when the instruction is not a Float whose 64-bit pattern is an
IEEE-754 NaN (exponent all ones, fraction nonzero); on a NaN payload Rust's
derived PartialEq would make even a bit-identical round trip compare
unequal. -/
def ByteCode.floatNotNaN : ByteCode → Bool
  | .float _ v => !(decide (v / 4503599627370496 % 2048 = 2047) && decide (v % 4503599627370496 ≠ 0))
  | _ => true

/-- Well-formedness of a Program as a Rust value, restricted to the shapes
that serialize and parse faithfully: pool and string sizes fit in u32, every
character is ASCII, every instruction is well formed and neither Binary nor
Unary. -/
def Program.wfb (p : Program) : Bool :=
  decide (p.strings.length < 4294967296)
    && p.strings.all (fun s => decide (s.length < 4294967296) && s.all (fun c => decide (c < 128)))
    && p.code.all (fun bc => bc.wfb && bc.notBinaryUnary)

/-- Byte length of the serialized string section plus count word: 4 for the
count, then 4 plus the character count for each string. -/
def headerLen (p : Program) : Nat :=
  4 + (p.strings.map (fun s => 4 + s.length)).sum

/-- Decidable equality for Except values, so concrete codec results can be
settled by decide. -/
instance {ε α : Type} [DecidableEq ε] [DecidableEq α] : DecidableEq (Except ε α) := fun a b =>
  match a, b with
  | .error e1, .error e2 =>
    if h : e1 = e2 then .isTrue (by rw [h]) else .isFalse (fun hc => h (by cases hc; rfl))
  | .ok v1, .ok v2 =>
    if h : v1 = v2 then .isTrue (by rw [h]) else .isFalse (fun hc => h (by cases hc; rfl))
  | .error _, .ok _ => .isFalse (fun hc => Except.noConfusion hc)
  | .ok _, .error _ => .isFalse (fun hc => Except.noConfusion hc)

/-- Reassembling the four big-endian bytes of a 32-bit value gives the value
back. -/
theorem u32be_beU32 (n : Nat) (h : n < 4294967296) :
    beU32 (n / 16777216 % 256) (n / 65536 % 256) (n / 256 % 256) (n % 256) = n := by
  unfold beU32
  omega

/-- Bitwise or of a value below 2 ^ n with a multiple of 2 ^ n is plain
addition: the two operands occupy disjoint bit ranges. -/
theorem lor_mul_pow : ∀ (n a b : Nat), a < 2 ^ n → a ||| b * 2 ^ n = a + b * 2 ^ n := by
  intro n
  induction n with
  | zero =>
    intro a b ha
    have ha0 : a = 0 := by omega
    subst ha0
    simp
  | succ n ih =>
    intro a b ha
    have hpow : 2 ^ (n + 1) = 2 ^ n * 2 := by rw [Nat.pow_succ]
    have hmul : b * 2 ^ (n + 1) = b * 2 ^ n * 2 := by
      rw [hpow, Nat.mul_assoc]
    have hhalf : a / 2 < 2 ^ n := by
      rw [hpow] at ha
      omega
    have key := ih (a / 2) b hhalf
    have hdiv : (a ||| b * 2 ^ (n + 1)) / 2 = a / 2 ||| b * 2 ^ n := by
      rw [Nat.or_div_two, hmul]
      congr 1
      omega
    have hbm : b * 2 ^ (n + 1) % 2 = 0 := by
      rw [hmul]
      omega
    have hiff := Nat.or_mod_two_eq_one (a := a) (b := b * 2 ^ (n + 1))
    have hstep := Nat.div_add_mod (a ||| b * 2 ^ (n + 1)) 2
    rw [hdiv, key] at hstep
    rw [hmul]
    generalize hx : a ||| b * 2 ^ (n + 1) = x at hiff hstep
    generalize hy : b * 2 ^ n = y at hbm hiff hstep ⊢
    rw [hmul, hy] at hx
    omega

/-- Specialization of lor_mul_pow to the decoder's 64-bit reassembly. -/
theorem lor_shift32 (a b : Nat) (h : a < 4294967296) :
    a ||| b <<< 32 = a + b * 4294967296 := by
  have hs : b <<< 32 = b * 2 ^ 32 := Nat.shiftLeft_eq b 32
  have := lor_mul_pow 32 a b (by norm_num at h ⊢; omega)
  rw [hs]
  norm_num at this ⊢
  omega

/-- Claim C6: decoding a record whose opcode byte is 0x06 (not a listed
opcode and in no recognized sub-range) fails with InvalidOperation,
whatever the three operand words are. -/
theorem decode_unknown_opcode (w1 w2 w3 : Nat) :
    decode (0x06, w1, w2, w3) = .error .invalidOperation := rfl

/-- Claim C9: extracting the raw 32-bit value from a Locator discards the
tag: Address x and FromRegister x both yield x. -/
theorem locator_raw_value (x : Nat) :
    Locator.toU32 (.address x) = x ∧ Locator.toU32 (.fromRegister x) = x :=
  ⟨rfl, rfl⟩

/-- Claim C10: decoding opcode 0x13 (Bool) never fails: for all operand
words it yields Bool with dst = word1 and value = (word2 != 0) — any
nonzero word2 decodes to true and word3 is ignored, so records the encoder
never produces still decode successfully. -/
theorem decode_bool_total (w1 w2 w3 : Nat) :
    decode (0x13, w1, w2, w3) = .ok (.bool w1 (w2 != 0)) := rfl

/-- Claim C1 (code_bug evidence): the instruction round trip fails on every
Binary and Unary instruction. Encoding Binary(Add, 0, 0, 0) gives opcode
0x30, but the decoder subtracts 0x20 and looks up sub-operation code 0x10,
which no BinaryOperation has, so decoding returns
InvalidBinaryOperation(0x10) instead of the instruction; Unary(Neg, 0, 0)
fails symmetrically with InvalidUnaryOperation(0x10). -/
theorem roundtrip_binary_unary_fails :
    decode (encode (.binary .add 0 0 0)) = .error (.invalidBinaryOperation 0x10) ∧
    decode (encode (.unary .neg 0 0)) = .error (.invalidUnaryOperation 0x10) ∧
    decode (encode (.binary .add 0 0 0)) ≠ .ok (.binary .add 0 0 0) ∧
    decode (encode (.unary .neg 0 0)) ≠ .ok (.unary .neg 0 0) := by
  refine ⟨rfl, rfl, by decide, by decide⟩

/-- Claim C3 (code_bug evidence): decoding opcode 0x30 + c for each valid
BinaryOperation code c (0..3) does not yield the Binary instruction with
that code: the decoder subtracts 0x20, lands on 0x10 + c, and fails with
InvalidBinaryOperation(0x10 + c); opcode 0x40 for the valid UnaryOperation
code 0 fails likewise with InvalidUnaryOperation(0x10). -/
theorem decode_sub_opcode_fails :
    decode (0x30, 1, 2, 3) = .error (.invalidBinaryOperation 0x10) ∧
    decode (0x31, 1, 2, 3) = .error (.invalidBinaryOperation 0x11) ∧
    decode (0x32, 1, 2, 3) = .error (.invalidBinaryOperation 0x12) ∧
    decode (0x33, 1, 2, 3) = .error (.invalidBinaryOperation 0x13) ∧
    decode (0x40, 1, 2, 0) = .error (.invalidUnaryOperation 0x10) ∧
    decode (0x30, 1, 2, 3) ≠ .ok (.binary .add 1 2 3) := by
  refine ⟨rfl, rfl, rfl, rfl, rfl, by decide⟩

/-- Every word of an encoded record fits its wire width: the opcode byte is
below 256 and the three operand words are below 2 ^ 32, whenever the
instruction's own fields fit their machine types. -/
theorem encode_bounds (bc : ByteCode) (h : bc.wfb = true) :
    (encode bc).1 < 256 ∧ (encode bc).2.1 < 4294967296 ∧
    (encode bc).2.2.1 < 4294967296 ∧ (encode bc).2.2.2 < 4294967296 := by
  cases bc with
  | none => simp [encode]
  | halt => simp [encode]
  | jump l =>
    cases l <;> simp [encode, ByteCode.wfb, Locator.wfb] at h ⊢ <;> omega
  | jumpIf c l =>
    cases l <;> simp [encode, ByteCode.wfb, Locator.wfb] at h ⊢ <;> omega
  | string d a => simp [encode, ByteCode.wfb] at h ⊢; omega
  | int d v =>
    simp [encode, ByteCode.wfb] at h ⊢
    omega
  | float d v =>
    simp [encode, ByteCode.wfb] at h ⊢
    omega
  | bool d v =>
    cases v <;> (simp [encode, ByteCode.wfb] at h ⊢; omega)
  | move d s => simp [encode, ByteCode.wfb] at h ⊢; omega
  | field d s f => simp [encode, ByteCode.wfb] at h ⊢; omega
  | call l args d =>
    cases l <;> simp [encode, ByteCode.wfb, Locator.wfb] at h ⊢ <;> omega
  | binary op d l r =>
    cases op <;> simp [encode, ByteCode.wfb, BinaryOperation.toU8] at h ⊢ <;> omega
  | unary op d r =>
    cases op
    simp [encode, ByteCode.wfb, UnaryOperation.toU8] at h ⊢
    omega

/-- Decoding an encoded record returns the instruction itself, for every
well-formed instruction other than Binary and Unary (which the decoder's
off-by-0x10 subtraction rejects; see roundtrip_binary_unary_fails). -/
theorem decode_encode (bc : ByteCode) (hw : bc.wfb = true) (hnb : bc.notBinaryUnary = true) :
    decode (encode bc) = .ok bc := by
  cases bc with
  | none => rfl
  | halt => rfl
  | jump l => cases l <;> rfl
  | jumpIf c l => cases l <;> rfl
  | string d a => rfl
  | int d v =>
    simp only [ByteCode.wfb, Bool.and_eq_true, decide_eq_true_eq] at hw
    have step : decode (encode (.int d v)) =
        .ok (.int d (v % 4294967296 ||| (v / 4294967296 % 4294967296) <<< 32)) := rfl
    rw [step, lor_shift32 _ _ (by omega)]
    have hv : v % 4294967296 + v / 4294967296 % 4294967296 * 4294967296 = v := by omega
    rw [hv]
  | float d v =>
    simp only [ByteCode.wfb, Bool.and_eq_true, decide_eq_true_eq] at hw
    have step : decode (encode (.float d v)) =
        .ok (.float d (v % 4294967296 ||| (v / 4294967296 % 4294967296) <<< 32)) := rfl
    rw [step, lor_shift32 _ _ (by omega)]
    have hv : v % 4294967296 + v / 4294967296 % 4294967296 * 4294967296 = v := by omega
    rw [hv]
  | bool d v => cases v <;> rfl
  | move d s => rfl
  | field d s f => rfl
  | call l args d => cases l <;> rfl
  | binary op d l r => simp [ByteCode.notBinaryUnary] at hnb
  | unary op d r => simp [ByteCode.notBinaryUnary] at hnb

/-- Claim C7: encoding an Int splits its 64-bit value into two 32-bit words,
low word first (word2) and high word second (word3), and decoding
reassembles the same value. -/
theorem int_split_roundtrip (dst v : Nat) (h1 : dst < 4294967296)
    (h2 : v < 18446744073709551616) :
    encode (.int dst v) = (0x11, dst, v % 4294967296, v / 4294967296) ∧
    decode (encode (.int dst v)) = .ok (.int dst v) := by
  have hd : v / 4294967296 % 4294967296 = v / 4294967296 := by omega
  constructor
  · show (0x11, dst, v % 4294967296, v / 4294967296 % 4294967296) =
      (0x11, dst, v % 4294967296, v / 4294967296)
    rw [hd]
  · exact decode_encode (.int dst v)
      (by simp [ByteCode.wfb]; omega) rfl

/-- Witness for int_split_roundtrip, at the spec's concrete scenario 3:
Int with dst 3 and value 0x1_0000_0002 encodes to (0x11, 3, 2, 1) and
decodes back. -/
theorem int_split_roundtrip_witness :
    encode (.int 3 4294967298) = (0x11, 3, 2, 1) ∧
    decode (encode (.int 3 4294967298)) = .ok (.int 3 4294967298) := by
  have h := int_split_roundtrip 3 4294967298 (by omega) (by omega)
  exact ⟨by rw [h.1], h.2⟩

/-- Claim C8 (amended): decoding the code of any table member returns that
member (so encoding is total and left-inverse to decoding), and decoding
any out-of-range integer fails with the dedicated unit error value — which
carries no payload at all. -/
theorem operation_code_tables :
    (∀ op : BinaryOperation, BinaryOperation.tryFrom op.toU8 = .ok op) ∧
    (∀ op : UnaryOperation, UnaryOperation.tryFrom op.toU8 = .ok op) ∧
    (∀ c : Nat, 4 ≤ c → BinaryOperation.tryFrom c = .error .mk) ∧
    (∀ c : Nat, 1 ≤ c → UnaryOperation.tryFrom c = .error .mk) := by
  refine ⟨?_, ?_, ?_, ?_⟩
  · intro op; cases op <;> rfl
  · intro op; cases op; rfl
  · intro c h
    unfold BinaryOperation.tryFrom
    split <;> first | rfl | omega
  · intro c h
    unfold UnaryOperation.tryFrom
    split <;> first | rfl | omega

/-- Witness for operation_code_tables at concrete codes. -/
theorem operation_code_tables_witness :
    BinaryOperation.tryFrom 0 = .ok .add ∧ UnaryOperation.tryFrom 0 = .ok .neg ∧
    BinaryOperation.tryFrom 7 = .error .mk ∧ UnaryOperation.tryFrom 3 = .error .mk :=
  ⟨operation_code_tables.1 .add, operation_code_tables.2.1 .neg,
   operation_code_tables.2.2.1 7 (by omega), operation_code_tables.2.2.2 3 (by omega)⟩

/-- Counterexample for claim C8 as stated: the table-level errors carry no
offending code — two different out-of-range codes produce identical error
values (BinaryOperationError and UnaryOperationError are unit structs), so
no information about the code survives in the error. -/
theorem operation_tables_error_carries_no_code :
    BinaryOperation.tryFrom 4 = BinaryOperation.tryFrom 5 ∧
    BinaryOperation.tryFrom 4 = .error .mk ∧
    UnaryOperation.tryFrom 1 = UnaryOperation.tryFrom 2 ∧
    UnaryOperation.tryFrom 1 = .error .mk :=
  ⟨rfl, rfl, rfl, rfl⟩

/-- For an all-ASCII string, the UTF-8 byte length equals the character
count. -/
theorem strLen_ascii (s : List Nat) (h : ∀ c ∈ s, c < 128) : strLen s = s.length := by
  induction s with
  | nil => rfl
  | cons c t ih =>
    have hc : c < 128 := h c (by simp)
    have ht := ih (fun x hx => h x (by simp [hx]))
    simp only [strLen, List.map_cons, List.sum_cons, List.length_cons] at ht ⊢
    rw [utf8Len, if_pos hc]
    omega

/-- Truncating each character of an all-ASCII string to one byte changes
nothing. -/
theorem map_mod_ascii (s : List Nat) (h : ∀ c ∈ s, c < 128) :
    s.map (fun c => c % 256) = s := by
  induction s with
  | nil => rfl
  | cons c t ih =>
    have hc : c < 128 := h c (by simp)
    have ht := ih (fun x hx => h x (by simp [hx]))
    simp only [List.map_cons, ht, List.cons.injEq]
    exact ⟨by omega, trivial⟩

/-- Reading exactly the length of a leading block returns the block and the
remainder. -/
theorem parseString_exact (l rest : List Nat) :
    parseString l.length (l ++ rest) = some (l, rest) := by
  induction l with
  | nil => rfl
  | cons c t ih => simp [parseString, ih]

/-- Asking for more bytes than remain fails. -/
theorem parseString_short (k : Nat) (l : List Nat) (h : l.length < k) :
    parseString k l = Option.none := by
  induction l generalizing k with
  | nil =>
    cases k with
    | zero => exact absurd h (by omega)
    | succ k => rfl
  | cons c t ih =>
    cases k with
    | zero => exact absurd h (by omega)
    | succ k =>
      have ht : t.length < k := by simpa using h
      simp [parseString, ih k ht]

/-- Parsing the serialized string pool consumes exactly the pool's bytes and
returns the pool, for pools of ASCII strings of u32-representable length. -/
theorem parseStrings_exact (ss : List (List Nat)) (rest : List Nat)
    (h : ∀ s ∈ ss, s.length < 4294967296 ∧ ∀ c ∈ s, c < 128) :
    parseStrings ss.length ((ss.map serializeString).flatten ++ rest) = some (ss, rest) := by
  induction ss with
  | nil => rfl
  | cons s t ih =>
    obtain ⟨hlen, hascii⟩ := h s (by simp)
    have ht : ∀ x ∈ t, x.length < 4294967296 ∧ ∀ c ∈ x, c < 128 :=
      fun x hx => h x (by simp [hx])
    have hsl : strLen s = s.length := strLen_ascii s hascii
    have hslt : strLen s < 4294967296 := by omega
    simp only [List.map_cons, List.flatten_cons, List.length_cons, List.append_assoc,
      serializeString, u32be, List.cons_append, List.nil_append]
    simp only [parseStrings]
    rw [u32be_beU32 (strLen s) hslt, hsl, map_mod_ascii s hascii, parseString_exact]
    simp only [ih ht]

/-- Appending to a record's bytes exposes the thirteen cons cells the code
parser destructures. -/
theorem recordBytes_cons (op w1 w2 w3 : Nat) (rest : List Nat) :
    recordBytes (op, w1, w2, w3) ++ rest =
      op :: w1 / 16777216 % 256 :: w1 / 65536 % 256 :: w1 / 256 % 256 :: w1 % 256 ::
      w2 / 16777216 % 256 :: w2 / 65536 % 256 :: w2 / 256 % 256 :: w2 % 256 ::
      w3 / 16777216 % 256 :: w3 / 65536 % 256 :: w3 / 256 % 256 :: w3 % 256 :: rest := rfl

/-- Parsing the serialized code stream decodes exactly the original
instruction list, when every instruction is well formed and neither Binary
nor Unary. -/
theorem parseCode_exact (code : List ByteCode)
    (h : ∀ bc ∈ code, bc.wfb = true ∧ bc.notBinaryUnary = true) :
    parseCode ((code.map (fun bc => recordBytes (encode bc))).flatten) = .ok code := by
  induction code with
  | nil => rfl
  | cons bc t ih =>
    obtain ⟨hw, hnb⟩ := h bc (by simp)
    have ht : ∀ x ∈ t, x.wfb = true ∧ x.notBinaryUnary = true :=
      fun x hx => h x (by simp [hx])
    have hb := encode_bounds bc hw
    have hde := decode_encode bc hw hnb
    rcases he : encode bc with ⟨op, w1, w2, w3⟩
    rw [he] at hb hde
    obtain ⟨hbo, hb1, hb2, hb3⟩ := hb
    simp only [List.map_cons, List.flatten_cons]
    rw [he, recordBytes_cons]
    simp only [parseCode]
    rw [u32be_beU32 w1 hb1, u32be_beU32 w2 hb2, u32be_beU32 w3 hb3, hde]
    simp only [ih ht]

/-- Unpacking of Program.wfb into its three propositional parts. -/
theorem wfb_parts (p : Program) (hw : p.wfb = true) :
    p.strings.length < 4294967296 ∧
    (∀ s ∈ p.strings, s.length < 4294967296 ∧ ∀ c ∈ s, c < 128) ∧
    (∀ bc ∈ p.code, bc.wfb = true ∧ bc.notBinaryUnary = true) := by
  simp only [Program.wfb, Bool.and_eq_true, decide_eq_true_eq, List.all_eq_true] at hw
  obtain ⟨⟨hcnt, hstr⟩, hcode⟩ := hw
  refine ⟨hcnt, ?_, ?_⟩
  · intro s hs
    have := hstr s hs
    simp only [Bool.and_eq_true, decide_eq_true_eq, List.all_eq_true] at this
    exact ⟨this.1, fun c hc => this.2 c hc⟩
  · intro bc hbc
    have := hcode bc hbc
    simpa using this

/-- Claim C2 (amended): the program round trip holds for every Program whose
pool and string sizes fit in u32, whose strings are all ASCII, and whose
code contains no Binary or Unary instruction; Float payloads are carried and
compared as bit patterns, and NaN payloads are excluded because under Rust's
derived PartialEq a NaN never equals itself even bit-for-bit. -/
theorem program_roundtrip (p : Program) (hw : p.wfb = true)
    (_hnn : p.code.all ByteCode.floatNotNaN = true) :
    parse (serialize p) = .ok p := by
  obtain ⟨hcnt, hstr', hcode'⟩ := wfb_parts p hw
  show parse (u32be p.strings.length ++ _ ++ _) = _
  simp only [u32be, List.cons_append, List.nil_append, List.append_assoc]
  simp only [parse]
  rw [u32be_beU32 p.strings.length hcnt, parseStrings_exact p.strings _ hstr']
  simp only [parseCode_exact p.code hcode']

/-- Witness for program_roundtrip, at the spec's concrete scenario 4: the
program with string pool containing the two-character ASCII string (h, i)
and code [Halt] serializes to the expected 23 bytes and parses back to
itself. -/
theorem program_roundtrip_witness :
    serialize ⟨[[104, 105]], [.halt]⟩ =
      [0, 0, 0, 1, 0, 0, 0, 2, 104, 105, 1, 0, 0, 0, 0, 0, 0, 0, 0, 0, 0, 0, 0] ∧
    parse [0, 0, 0, 1, 0, 0, 0, 2, 104, 105, 1, 0, 0, 0, 0, 0, 0, 0, 0, 0, 0, 0, 0] =
      .ok ⟨[[104, 105]], [.halt]⟩ :=
  ⟨rfl, program_roundtrip ⟨[[104, 105]], [.halt]⟩ rfl rfl⟩

/-- Counterexample for claim C2 as stated: the one-character string whose
code point is 233 (é, representable in one byte) serializes with length
prefix 2 — the UTF-8 byte length of é — but only one body byte follows, so
parsing the buffer underruns and fails with InsufficiantBytes instead of
returning the program. -/
theorem program_roundtrip_cx :
    serialize ⟨[[233]], []⟩ = [0, 0, 0, 1, 0, 0, 0, 2, 233] ∧
    parse (serialize ⟨[[233]], []⟩) = .error .insufficiantBytes ∧
    parse (serialize ⟨[[233]], []⟩) ≠ .ok ⟨[[233]], []⟩ ∧
    (233 : Nat) < 256 :=
  ⟨rfl, rfl, by decide, by omega⟩

/-- Claim C4 (amended): each serialized string entry is a 4-byte big-endian
prefix holding the string's UTF-8 byte length (`string.len()`), followed by
exactly one byte per character (the character truncated mod 256); the
prefix equals the character count precisely when the string is all
ASCII. -/
theorem string_entry_format (s : List Nat) (h : strLen s < 4294967296) :
    serializeString s = u32be (strLen s) ++ s.map (fun c => c % 256) ∧
    beU32 (strLen s / 16777216 % 256) (strLen s / 65536 % 256) (strLen s / 256 % 256)
      (strLen s % 256) = strLen s ∧
    (s.map (fun c => c % 256)).length = s.length ∧
    ((∀ c ∈ s, c < 128) → strLen s = s.length) :=
  ⟨rfl, u32be_beU32 _ h, by simp, fun ha => strLen_ascii s ha⟩

/-- Witness for string_entry_format at the ASCII string (h, i). -/
theorem string_entry_format_witness :
    strLen [104, 105] < 4294967296 ∧ serializeString [104, 105] = [0, 0, 0, 2, 104, 105] := by
  refine ⟨by decide, ?_⟩
  rw [(string_entry_format [104, 105] (by decide)).1]
  rfl

/-- Counterexample for claim C4 as stated: for the one-character string with
code point 233 the emitted 4-byte prefix holds 2 (the UTF-8 byte length),
not the number of characters, which is 1. -/
theorem string_entry_format_cx :
    serializeString [233] = [0, 0, 0, 2, 233] ∧
    ([233] : List Nat).length = 1 ∧ (2 : Nat) ≠ 1 :=
  ⟨rfl, rfl, by omega⟩

/-- Length of one serialized string entry: 4 prefix bytes plus one byte per
character. -/
theorem serializeString_length (s : List Nat) :
    (serializeString s).length = 4 + s.length := by
  simp [serializeString, u32be]
  omega

/-- Length of one serialized instruction record: always 13 bytes. -/
theorem recordBytes_length (b : Bytes) : (recordBytes b).length = 13 := by
  rcases b with ⟨op, w1, w2, w3⟩
  simp [recordBytes, u32be]

/-- Length of the serialized string section. -/
theorem stringsBytes_length (ss : List (List Nat)) :
    ((ss.map serializeString).flatten).length = (ss.map (fun s => 4 + s.length)).sum := by
  induction ss with
  | nil => rfl
  | cons s t ih => simp [serializeString_length, ih]

/-- Length of the serialized code section: 13 bytes per instruction. -/
theorem codeBytes_length (code : List ByteCode) :
    ((code.map (fun bc => recordBytes (encode bc))).flatten).length = 13 * code.length := by
  induction code with
  | nil => rfl
  | cons bc t ih =>
    simp [recordBytes_length, ih]
    try omega

/-- Length of a serialized program: the header (count word plus string
entries) followed by 13 bytes per instruction. -/
theorem serialize_length (p : Program) :
    (serialize p).length = headerLen p + 13 * p.code.length := by
  simp only [serialize, headerLen, List.length_append, stringsBytes_length, codeBytes_length]
  simp [u32be]
  try omega

/-- Parsing fewer than 4 bytes fails at the count word. -/
theorem parse_short4 (l : List Nat) (h : l.length < 4) :
    parse l = .error .insufficiantBytes := by
  rcases l with _ | ⟨a, _ | ⟨b, _ | ⟨c, _ | ⟨d, rest⟩⟩⟩⟩
  · rfl
  · rfl
  · rfl
  · rfl
  · simp at h; omega

/-- With at least one string still owed, fewer than 4 remaining bytes fail
at that string's length word. -/
theorem parseStrings_short4 (k : Nat) (l : List Nat) (h : l.length < 4) :
    parseStrings (k + 1) l = Option.none := by
  rcases l with _ | ⟨a, _ | ⟨b, _ | ⟨c, _ | ⟨d, rest⟩⟩⟩⟩
  · rfl
  · rfl
  · rfl
  · rfl
  · simp at h; omega

/-- A nonempty buffer shorter than one full record fails inside that
record's words. -/
theorem parseCode_short (l : List Nat) (h0 : l ≠ []) (h : l.length < 13) :
    parseCode l = .error .insufficiantBytes := by
  rcases l with _ | ⟨x1, _ | ⟨x2, _ | ⟨x3, _ | ⟨x4, _ | ⟨x5, _ | ⟨x6, _ | ⟨x7, _ | ⟨x8, _ | ⟨x9, _ | ⟨x10, _ | ⟨x11, _ | ⟨x12, _ | ⟨x13, rest⟩⟩⟩⟩⟩⟩⟩⟩⟩⟩⟩⟩⟩
  · exact absurd rfl h0
  all_goals first
    | rfl
    | (simp at h; omega)

/-- Truncating strictly inside the serialized string pool makes the pool
parse fail, for ASCII pools: every length prefix that survives intact
promises exactly the bytes that followed it, so the cut is always detected
as a short read. -/
theorem parseStrings_trunc (ss : List (List Nat)) (j : Nat)
    (h : ∀ s ∈ ss, s.length < 4294967296 ∧ ∀ c ∈ s, c < 128)
    (hj : j < ((ss.map serializeString).flatten).length) :
    parseStrings ss.length (List.take j ((ss.map serializeString).flatten)) = Option.none := by
  induction ss generalizing j with
  | nil => simp at hj
  | cons s t ih =>
    obtain ⟨hlen, hascii⟩ := h s (by simp)
    have ht : ∀ x ∈ t, x.length < 4294967296 ∧ ∀ c ∈ x, c < 128 :=
      fun x hx => h x (by simp [hx])
    have hsl : strLen s = s.length := strLen_ascii s hascii
    have hslt : strLen s < 4294967296 := by omega
    have hmaplen : (s.map (fun c => c % 256)).length = s.length := by simp
    simp only [List.map_cons, List.flatten_cons, List.length_cons, List.length_append,
      serializeString_length] at hj ⊢
    rcases Nat.lt_or_ge j 4 with h4 | h4
    · apply parseStrings_short4
      rw [List.length_take]
      omega
    rcases Nat.lt_or_ge j (4 + s.length) with hL | hL
    · -- the cut lands inside this entry
      rw [serializeString, List.append_assoc, List.take_append_eq_append_take,
        List.take_of_length_le (by simp [u32be]; omega),
        show (u32be (strLen s)).length = 4 from by simp [u32be]]
      simp only [u32be, List.cons_append, List.nil_append, List.append_eq, parseStrings]
      rw [u32be_beU32 (strLen s) hslt, hsl,
        List.take_append_of_le_length (by omega : j - 4 ≤ (s.map (fun c => c % 256)).length),
        parseString_short s.length _ (by rw [List.length_take]; omega)]
    · -- this entry is intact; recurse into the tail
      rw [serializeString, List.append_assoc, List.take_append_eq_append_take,
        List.take_of_length_le (by simp [u32be]; omega),
        show (u32be (strLen s)).length = 4 from by simp [u32be]]
      rw [List.take_append_eq_append_take,
        List.take_of_length_le (by omega : (s.map (fun c => c % 256)).length ≤ j - 4),
        hmaplen]
      simp only [u32be, List.cons_append, List.nil_append, List.append_eq, parseStrings]
      rw [u32be_beU32 (strLen s) hslt, hsl, map_mod_ascii s hascii, parseString_exact]
      simp only [ih (j - 4 - s.length) ht (by omega)]

/-- Truncating the serialized code stream anywhere except at a record
boundary makes the code parse fail with InsufficiantBytes, provided the
complete records before the cut all decode. -/
theorem parseCode_trunc (code : List ByteCode) (d : Nat)
    (h : ∀ bc ∈ code, bc.wfb = true ∧ bc.notBinaryUnary = true)
    (hd : ¬ (13 ∣ d))
    (hlt : d < 13 * code.length) :
    parseCode (List.take d ((code.map (fun bc => recordBytes (encode bc))).flatten)) =
      .error .insufficiantBytes := by
  induction code generalizing d with
  | nil => simp at hlt
  | cons bc t ih =>
    obtain ⟨hw, hnb⟩ := h bc (by simp)
    have ht : ∀ x ∈ t, x.wfb = true ∧ x.notBinaryUnary = true :=
      fun x hx => h x (by simp [hx])
    have hb := encode_bounds bc hw
    have hde := decode_encode bc hw hnb
    rcases he : encode bc with ⟨op, w1, w2, w3⟩
    rw [he] at hb hde
    obtain ⟨hbo, hb1, hb2, hb3⟩ := hb
    simp only [List.map_cons, List.flatten_cons]
    rw [he]
    rcases Nat.lt_or_ge d 13 with h13 | h13
    · have hd0 : d ≠ 0 := by
        rintro rfl
        exact hd ⟨0, rfl⟩
      obtain ⟨e, rfl⟩ : ∃ e, d = e + 1 := ⟨d - 1, by omega⟩
      rw [recordBytes_cons, List.take_succ_cons]
      apply parseCode_short
      · exact List.cons_ne_nil _ _
      · simp only [List.length_cons, List.length_take]
        omega
    · rw [List.take_append_eq_append_take,
        List.take_of_length_le (by rw [recordBytes_length]; omega),
        recordBytes_length, recordBytes_cons]
      simp only [parseCode]
      rw [u32be_beU32 w1 hb1, u32be_beU32 w2 hb2, u32be_beU32 w3 hb3, hde]
      have hrec := ih (d - 13) ht (by omega) (by simp at hlt ⊢; omega)
      simp only [hrec]

/-- Claim C5 (amended): for a well-formed Program (ASCII strings of
u32-representable sizes, no Binary/Unary code), removing the last k bytes
of the serialized buffer (1 ≤ k ≤ N) makes parsing fail with
InsufficiantBytes whenever the cut does not land exactly on an
instruction-record boundary at or after the end of the string section —
that is, whenever N - k is not of the form headerLen + 13 * m. (At a record
boundary the parse instead succeeds with a prefix of the code, because the
format has no instruction count and the record loop simply stops at the end
of the buffer; see truncation_boundary_cx.) -/
theorem truncation_insufficiant (p : Program) (k : Nat) (hw : p.wfb = true)
    (hk1 : 1 ≤ k) (hk2 : k ≤ (serialize p).length)
    (hnb : ∀ m : Nat, (serialize p).length - k ≠ headerLen p + 13 * m) :
    parse (List.take ((serialize p).length - k) (serialize p)) =
      .error .insufficiantBytes := by
  obtain ⟨hcnt, hstr, hcode⟩ := wfb_parts p hw
  have hN := serialize_length p
  have hSJ : headerLen p = 4 + ((p.strings.map serializeString).flatten).length := by
    rw [headerLen, stringsBytes_length]
  have hCJ : ((p.code.map (fun bc => recordBytes (encode bc))).flatten).length =
      13 * p.code.length := codeBytes_length p.code
  have hhl4 : 4 ≤ headerLen p := by rw [headerLen]; omega
  set j := (serialize p).length - k with hj
  have hjlt : j < (serialize p).length := by omega
  rcases Nat.lt_or_ge j 4 with h4 | h4
  · apply parse_short4
    rw [List.length_take]
    omega
  rcases Nat.lt_or_ge j (headerLen p) with hHL | hHL
  · -- the cut lands inside the string section
    simp only [serialize, List.append_assoc]
    rw [List.take_append_eq_append_take,
      List.take_of_length_le (by simp [u32be]; omega),
      show (u32be p.strings.length).length = 4 from by simp [u32be],
      List.take_append_of_le_length (by omega)]
    simp only [u32be, List.cons_append, List.nil_append, parse]
    rw [u32be_beU32 p.strings.length hcnt,
      parseStrings_trunc p.strings (j - 4) hstr (by omega)]
  · -- the cut lands inside the code section, off a record boundary
    have hd13 : ¬ (13 ∣ (j - headerLen p)) := by
      rintro ⟨m, hm⟩
      exact hnb m (by omega)
    have hdlt : j - headerLen p < 13 * p.code.length := by omega
    have hlenAS : (u32be p.strings.length ++ (p.strings.map serializeString).flatten).length =
        headerLen p := by
      rw [List.length_append, show (u32be p.strings.length).length = 4 from by simp [u32be]]
      omega
    simp only [serialize]
    rw [List.take_append_eq_append_take,
      List.take_of_length_le (by rw [hlenAS]; omega),
      hlenAS, List.append_assoc]
    simp only [u32be, List.cons_append, List.nil_append, parse]
    rw [u32be_beU32 p.strings.length hcnt, parseStrings_exact p.strings _ hstr]
    simp only [parseCode_trunc p.code (j - headerLen p) hcode hd13 hdlt]

/-- Witness for truncation_insufficiant, at the spec's concrete scenario 5:
the empty program serializes to the four zero count bytes, and cutting one
byte leaves the three-byte buffer whose parse fails with
InsufficiantBytes. -/
theorem truncation_insufficiant_witness :
    parse [0, 0, 0] = .error .insufficiantBytes :=
  truncation_insufficiant ⟨[], []⟩ 1 rfl (by omega) (by decide)
    (fun m => by show 3 ≠ 4 + 13 * m; omega)

/-- Counterexample for claim C5 as stated: cutting the 17-byte serialization
of the program with code [Halt] at a record boundary (removing the last
k = 13 bytes, with 1 ≤ 13 ≤ 17) does not fail with InsufficiantBytes — it
parses successfully to the empty program. -/
theorem truncation_boundary_cx :
    serialize ⟨[], [.halt]⟩ = [0, 0, 0, 0, 1, 0, 0, 0, 0, 0, 0, 0, 0, 0, 0, 0, 0] ∧
    (serialize ⟨[], [.halt]⟩).length = 17 ∧
    parse (List.take (17 - 13) (serialize ⟨[], [.halt]⟩)) = .ok ⟨[], []⟩ ∧
    parse (List.take (17 - 13) (serialize ⟨[], [.halt]⟩)) ≠ .error .insufficiantBytes :=
  ⟨rfl, rfl, rfl, by decide⟩

end PicoBytes
